import Mathlib

/-!
Shallow embedding of `data/__init__.py`: a compositional algebra for fixed
binary layouts.  Atomic fields (`Atom`), composite records (`Components`),
and layout matchers (`Structure`) with endianness, offset and padding,
plus the `Field` catalog of named presets.

Python's struct-style type codes are modelled by the enumeration `TypeCode`;
the three endianness characters `'|' '<' '>'` by `Endian`.  Python exceptions
(`ValueError`, and the `AttributeError` produced by calling a missing method
on an `Atom`) are modelled by the `Err` type, and fallible operations return
`Except Err _`.
-/

/-- The fixed enumeration of element type codes from the Python source:
`'b' 'B' 'h' 'H' 'i' 'I' 'q' 'Q' '?' 'x' 's' 'e' 'f' 'd'`.
The `'?'` code is named `boolean` here. -/
inductive TypeCode
  | b | B | h | H | i | I | q | Q
  | boolean | x | s | e | f | d
  deriving DecidableEq

/-- `Atom.element_size`: the per-typecode byte-size table. -/
def TypeCode.element_size : TypeCode → Nat
  | .b => 1 | .B => 1 | .h => 2 | .H => 2
  | .i => 4 | .I => 4 | .q => 8 | .Q => 8
  | .boolean => 1 | .x => 1 | .s => 1
  | .e => 2 | .f => 4 | .d => 8

/-- The typename table used by `Atom.__str__` (transcribed exactly as it
appears in the source, including its signed/unsigned labelling). -/
def TypeCode.typename : TypeCode → String
  | .b => "unsigned byte" | .B => "signed byte"
  | .h => "unsigned 2-bytes" | .H => "signed 2-bytes"
  | .i => "unsigned 4-bytes" | .I => "signed 4-bytes"
  | .q => "unsigned 8-bytes" | .Q => "signed 8-bytes"
  | .boolean => "bool" | .x => "<ignored>" | .s => "text"
  | .e => "half-float" | .f => "float" | .d => "double"

/-- Endianness tags: `'|'` (unknown), `'<'` (little), `'>'` (big). -/
inductive Endian
  | unknown | little | big
  deriving DecidableEq

/-- The `{'|': 'unknown', '<': 'little', '>': 'big'}` table of
`Structure.__str__`. -/
def Endian.word : Endian → String
  | .unknown => "unknown" | .little => "little" | .big => "big"

/-- Python exceptions raised by the module: `ValueError msg`, and the
`AttributeError` that results from invoking a method an `Atom` lacks. -/
inductive Err
  | valueError (msg : String)
  | attributeError (meth : String)
  deriving DecidableEq

/-- The element tree: `Atom` (a typecode plus a repetition shape) or
`Components` (parts, per-part optional names, and its own shape).
Shape entries are the repeat counts appended by `__mul__`. -/
inductive Elem
  | atom (typecode : TypeCode) (shape : List Nat)
  | comp (parts : List Elem) (names : List (Option String)) (shape : List Nat)

namespace Elem

/-- The `shape` property shared by `Atom` and `Components`. -/
def shape : Elem → List Nat
  | .atom _ sh => sh
  | .comp _ _ sh => sh

/-- `Components.parts`; an `Atom` has no such attribute, but `__add__` only
reads it after `_normalize`, which always yields a `Components`, so the
`atom` arm is unreachable there (we return `[]`). -/
def parts : Elem → List Elem
  | .atom _ _ => []
  | .comp ps _ _ => ps

/-- `Components.names`; as with `parts`, the `atom` arm is unreachable in
`__add__`. -/
def names : Elem → List (Option String)
  | .atom _ _ => []
  | .comp _ ns _ => ns

mutual

/-- `_ArrayElement.size`: the element size multiplied, left to right, by
every dimension of the shape (`result *= dimension`). -/
def size : Elem → Nat
  | .atom t sh => sh.foldl (· * ·) t.element_size
  | .comp ps _ sh => sh.foldl (· * ·) (sizeParts ps)

/-- `Components.element_size`: `sum(p.size for p in self.parts)`. -/
def sizeParts : List Elem → Nat
  | [] => 0
  | p :: ps => p.size + sizeParts ps

end

/-- `_normalize`: an `Atom` always wraps itself in a one-part `Components`;
a `Components` wraps itself only when its shape is non-empty, and otherwise
is returned unchanged. -/
def normalize : Elem → Elem
  | .atom t sh => .comp [.atom t sh] [none] []
  | .comp ps ns sh => if sh = [] then .comp ps ns sh else .comp [.comp ps ns sh] [none] []

/-- `_ArrayElement.__add__`: normalize both operands and concatenate their
part and name sequences into a fresh shapeless `Components`. -/
def add (a b : Elem) : Elem :=
  .comp (a.normalize.parts ++ b.normalize.parts) (a.normalize.names ++ b.normalize.names) []

/-- `__mul__` on `Atom` and on `Components`: append the count to the shape.
Neither method validates the count. -/
def mul : Elem → Nat → Elem
  | .atom t sh, n => .atom t (sh ++ [n])
  | .comp ps ns sh, n => .comp ps ns (sh ++ [n])

/-- `Components.group`: wrap as a single named part.  `Atom` has no `group`
method, so an atomic receiver raises `AttributeError`. -/
def group : Elem → Option String → Except Err Elem
  | .atom _ _, _ => .error (.attributeError "group")
  | .comp ps ns sh, name => .ok (.comp [.comp ps ns sh] [name] [])

/-- `Components.named`: replace the name of a singleton part list, raising
`ValueError` when the part count differs from one.  `Atom` has no `named`
method. -/
def named : Elem → Option String → Except Err Elem
  | .atom _ _, _ => .error (.attributeError "named")
  | .comp ps _ sh, name =>
      if ps.length ≠ 1 then .error (.valueError "can't apply single name to multiple fields")
      else .ok (.comp ps [name] sh)

/-- `Components.with_names`: rebuild with a new name sequence; the
`Components` constructor raises `ValueError` when the lengths differ.
`Atom` has no `with_names` method. -/
def with_names : Elem → List (Option String) → Except Err Elem
  | .atom _ _, _ => .error (.attributeError "with_names")
  | .comp ps _ sh, ns =>
      if ns.length ≠ ps.length then .error (.valueError "name count must match field count")
      else .ok (.comp ps ns sh)

end Elem

/-- `_ArrayElement.shapestr`: `''.join(f'[{s}]' for s in shape)`. -/
def shapestr (sh : List Nat) : String :=
  String.join (sh.map (fun s => "[" ++ toString s ++ "]"))

/-- `Atom.__str__`: the typename followed by the shape suffix. -/
def atomStr (t : TypeCode) (sh : List Nat) : String :=
  t.typename ++ shapestr sh

/-- `' ' * n`. -/
def spaces (n : Nat) : String :=
  String.mk (List.replicate n ' ')

/-- Python `f'{name:{width}}'` on a string: left-justified padding. -/
def padTo (nm : String) (width : Nat) : String :=
  nm ++ spaces (width - nm.length)

/-- `str(i) if name is None else name`, applied with `enumerate`. -/
def inames (ns : List (Option String)) : List String :=
  ns.enum.map (fun p => match p.2 with | none => toString p.1 | some s => s)

/-- `'\n'.join`-style separator join (Python `str.join`). -/
def joinSep (sep : String) : List String → String
  | [] => ""
  | [x] => x
  | x :: xs => x ++ sep ++ joinSep sep xs

mutual

/-- `Components._indented` (with `Atom._indented`, which ignores the
indentation and returns `str(self)`).  Returns `none` where Python raises:
`max()` over an empty name sequence. -/
def Elem.indented : Elem → Nat → Bool → Option String
  | .atom t sh, _, _ => some (atomStr t sh)
  | .comp ps ns sh, amount, includeShape =>
      if ns.isEmpty then none
      else
        let ins := inames ns
        let width := ins.foldl (fun a s => max a s.length) 0
        match Elem.fieldLines ps ins width amount with
        | none => none
        | some fls =>
            let allLines := (if includeShape then [shapestr sh] else []) ++ fls
            some (joinSep ("\n" ++ spaces amount) allLines)

/-- The `for name, part in zip(inames, self.parts)` loop of
`Components._fields` (note `zip` truncates to the shorter sequence). -/
def Elem.fieldLines : List Elem → List String → Nat → Nat → Option (List String)
  | _, [], _, _ => some []
  | [], _ :: _, _, _ => some []
  | p :: ps, nm :: nms, width, amount =>
      match Elem.indented p (amount + width + 2) true, Elem.fieldLines ps nms width amount with
      | some line, some rest => some ((padTo nm width ++ ": " ++ line) :: rest)
      | _, _ => none

end

/-- `__str__` on elements: `Atom.__str__` directly, `Components.__str__`
via `_indented(0)`. -/
def Elem.toStr : Elem → Option String
  | .atom t sh => some (atomStr t sh)
  | .comp ps ns sh => Elem.indented (.comp ps ns sh) 0 true

/-- `Structure`: a layout matcher wrapping a root element with an
endianness tag, a byte offset and a byte padding amount. -/
structure Structure where
  components : Elem
  endian : Endian
  offset : Nat
  padding : Nat

namespace Structure

/-- `Structure.data_size`. -/
def data_size (m : Structure) : Nat := m.components.size

/-- `Structure.size`: `offset + padding + data_size`. -/
def size (m : Structure) : Nat := m.offset + m.padding + m.data_size

/-- The seven-entry endianness merge dictionary of `Structure.__add__`;
`none` models the `KeyError` branch. -/
def endianMergeTable : Endian → Endian → Option Endian
  | .big, .unknown => some .big
  | .little, .unknown => some .little
  | .unknown, .unknown => some .unknown
  | .big, .big => some .big
  | .little, .little => some .little
  | .unknown, .big => some .big
  | .unknown, .little => some .little
  | .little, .big => none
  | .big, .little => none

/-- `Structure.__add__`: merge the endianness tags (raising
`ValueError('endian conflict')` when the table has no entry) and wrap the
sum of the two roots; offset and padding take their defaults. -/
def add (a b : Structure) : Except Err Structure :=
  match endianMergeTable a.endian b.endian with
  | none => .error (.valueError "endian conflict")
  | some e => .ok ⟨a.components.add b.components, e, 0, 0⟩

/-- `Structure.__mul__`: repeat the root, keep the endianness; offset and
padding take their defaults. -/
def mul (m : Structure) (count : Nat) : Structure :=
  ⟨m.components.mul count, m.endian, 0, 0⟩

/-- `Structure.group`: delegate to the root. -/
def group (m : Structure) (name : Option String) : Except Err Structure :=
  (m.components.group name).map (fun c => ⟨c, m.endian, 0, 0⟩)

/-- `Structure.named`: delegate to the root. -/
def named (m : Structure) (name : Option String) : Except Err Structure :=
  (m.components.named name).map (fun c => ⟨c, m.endian, 0, 0⟩)

/-- `Structure.with_names`: delegate to the root. -/
def with_names (m : Structure) (ns : List (Option String)) : Except Err Structure :=
  (m.components.with_names ns).map (fun c => ⟨c, m.endian, 0, 0⟩)

/-- `Structure.__str__`.  The atomic branch is total; the composite branch
inherits the partiality of `Components._indented`. -/
def render (m : Structure) : Option String :=
  let endian := m.endian.word ++ "-endian matcher for"
  let embed_info := "(offset=" ++ toString m.offset ++ ", padding=" ++ toString m.padding ++ ")"
  match m.components with
  | .atom t sh => some (endian ++ " " ++ atomStr t sh ++ " (atomic) " ++ embed_info)
  | .comp ps ns sh =>
      match Elem.indented (.comp ps ns sh) 0 false with
      | none => none
      | some field_text =>
          some (endian ++ " structure" ++ shapestr sh ++ " " ++ embed_info ++ ":\n" ++ field_text)

end Structure

/-- `Field.__init__`: every catalog member wraps a single scalar `Atom`
with a declared endianness and default offset/padding. -/
def mkField (t : TypeCode) (e : Endian) : Structure :=
  ⟨.atom t [], e, 0, 0⟩

namespace Field

def b : Structure := mkField .b .unknown
def B : Structure := mkField .B .unknown
def h : Structure := mkField .h .unknown
def H : Structure := mkField .H .unknown
def i : Structure := mkField .i .unknown
def I : Structure := mkField .I .unknown
def l : Structure := mkField .i .unknown
def L : Structure := mkField .I .unknown
def q : Structure := mkField .q .unknown
def Q : Structure := mkField .Q .unknown
/-- The Python member is literally named `_` (the boolean preset). -/
def underscore : Structure := mkField .boolean .unknown
def e : Structure := mkField .e .unknown
def f : Structure := mkField .f .unknown
def d : Structure := mkField .d .unknown
def x : Structure := mkField .x .unknown
def s : Structure := mkField .s .unknown
def c : Structure := mkField .s .unknown
def s1 : Structure := mkField .b .little
def S1 : Structure := mkField .b .big
def u1 : Structure := mkField .B .little
def U1 : Structure := mkField .B .big
def s2 : Structure := mkField .h .little
def S2 : Structure := mkField .h .big
def u2 : Structure := mkField .H .little
def U2 : Structure := mkField .H .big
def s4 : Structure := mkField .i .little
def S4 : Structure := mkField .i .big
def u4 : Structure := mkField .I .little
def U4 : Structure := mkField .I .big
def s8 : Structure := mkField .q .little
def S8 : Structure := mkField .q .big
def u8 : Structure := mkField .Q .little
def U8 : Structure := mkField .Q .big
def b1 : Structure := mkField .boolean .little
def B1 : Structure := mkField .boolean .big
def f2 : Structure := mkField .e .little
def F2 : Structure := mkField .e .big
def f4 : Structure := mkField .f .little
def F4 : Structure := mkField .f .big
def f8 : Structure := mkField .d .little
def F8 : Structure := mkField .d .big
def p1 : Structure := mkField .x .little
def P1 : Structure := mkField .x .big
def t1 : Structure := mkField .s .little
def T1 : Structure := mkField .s .big

end Field

/-- The table of catalog presets paired with their documented base byte
widths (the order and widths of the test suite's `types_and_sizes`). -/
def widthTable : List (TypeCode × Endian × Nat) :=
  [(.b, .unknown, 1), (.B, .unknown, 1),
   (.h, .unknown, 2), (.H, .unknown, 2),
   (.i, .unknown, 4), (.I, .unknown, 4), (.i, .unknown, 4), (.I, .unknown, 4),
   (.q, .unknown, 8), (.Q, .unknown, 8),
   (.B, .little, 1), (.B, .big, 1), (.b, .little, 1), (.b, .big, 1),
   (.H, .little, 2), (.H, .big, 2), (.h, .little, 2), (.h, .big, 2),
   (.I, .little, 4), (.I, .big, 4), (.i, .little, 4), (.i, .big, 4),
   (.Q, .little, 8), (.Q, .big, 8), (.q, .little, 8), (.q, .big, 8),
   (.boolean, .unknown, 1), (.e, .unknown, 2), (.f, .unknown, 4), (.d, .unknown, 8),
   (.boolean, .little, 1), (.boolean, .big, 1),
   (.e, .little, 2), (.e, .big, 2),
   (.f, .little, 4), (.f, .big, 4),
   (.d, .little, 8), (.d, .big, 8),
   (.x, .unknown, 1), (.s, .unknown, 1), (.s, .unknown, 1),
   (.x, .little, 1), (.x, .big, 1), (.s, .little, 1), (.s, .big, 1)]

/-- The catalog of presets paired with their documented widths, in the test
suite's order. -/
def catalogWithWidths : List (Structure × Nat) :=
  [(Field.b, 1), (Field.B, 1),
   (Field.h, 2), (Field.H, 2),
   (Field.i, 4), (Field.I, 4), (Field.l, 4), (Field.L, 4),
   (Field.q, 8), (Field.Q, 8),
   (Field.u1, 1), (Field.U1, 1), (Field.s1, 1), (Field.S1, 1),
   (Field.u2, 2), (Field.U2, 2), (Field.s2, 2), (Field.S2, 2),
   (Field.u4, 4), (Field.U4, 4), (Field.s4, 4), (Field.S4, 4),
   (Field.u8, 8), (Field.U8, 8), (Field.s8, 8), (Field.S8, 8),
   (Field.underscore, 1), (Field.e, 2), (Field.f, 4), (Field.d, 8),
   (Field.b1, 1), (Field.B1, 1),
   (Field.f2, 2), (Field.F2, 2),
   (Field.f4, 4), (Field.F4, 4),
   (Field.f8, 8), (Field.F8, 8),
   (Field.x, 1), (Field.s, 1), (Field.c, 1),
   (Field.p1, 1), (Field.P1, 1), (Field.t1, 1), (Field.T1, 1)]

/-- All catalog presets, in the test suite's order. -/
def catalog : List Structure := catalogWithWidths.map Prod.fst

/-!
Line and substring infrastructure used to state the rendering claims:
splitting a character list at newlines (the semantics of `str.splitlines`
for strings without a trailing newline), prefix and substring tests.
-/

/-- Split a character list at `'\n'` separators. -/
def splitLines : List Char → List (List Char)
  | [] => [[]]
  | c :: rest =>
      if c = '\n' then [] :: splitLines rest
      else
        match splitLines rest with
        | [] => [[c]]
        | l :: ls => (c :: l) :: ls

/-- `true` when the character list contains no newline. -/
def noNL (l : List Char) : Bool :=
  l.all (fun c => !(c == '\n'))

/-- Boolean list-level starts-with test. -/
def startsWithL : List Char → List Char → Bool
  | [], _ => true
  | _ :: _, [] => false
  | a :: as, b :: bs => a == b && startsWithL as bs

/-- Boolean list-level substring test. -/
def containsL (pat : List Char) : List Char → Bool
  | [] => startsWithL pat []
  | c :: rest => startsWithL pat (c :: rest) || containsL pat rest

theorem splitLines_ne_nil (l : List Char) : splitLines l ≠ [] := by
  induction l with
  | nil => simp [splitLines]
  | cons c rest ih =>
      simp only [splitLines]
      split
      · simp
      · split
        · simp
        · simp

theorem noNL_append (a b : List Char) : noNL (a ++ b) = (noNL a && noNL b) := by
  simp [noNL, List.all_append]

theorem splitLines_of_noNL (l : List Char) (h : noNL l = true) : splitLines l = [l] := by
  induction l with
  | nil => rfl
  | cons c rest ih =>
      simp only [noNL, List.all_cons, Bool.and_eq_true] at h
      obtain ⟨hc, hrest⟩ := h
      have hc' : ¬ (c = '\n') := by
        intro hcn; subst hcn; simp at hc
      simp only [splitLines, if_neg hc']
      rw [ih hrest]

theorem splitLines_append (l r : List Char) (h : noNL l = true) :
    splitLines (l ++ '\n' :: r) = l :: splitLines r := by
  induction l with
  | nil => simp [splitLines]
  | cons c rest ih =>
      simp only [noNL, List.all_cons, Bool.and_eq_true] at h
      obtain ⟨hc, hrest⟩ := h
      have hc' : ¬ (c = '\n') := by
        intro hcn; subst hcn; simp at hc
      have ih' : splitLines (rest ++ '\n' :: r) = rest :: splitLines r := ih hrest
      simp only [List.cons_append, splitLines, if_neg hc', List.append_eq]
      rw [ih']

theorem startsWithL_self_append (p r : List Char) : startsWithL p (p ++ r) = true := by
  induction p with
  | nil => rfl
  | cons c cs ih => simp [startsWithL, ih]

theorem containsL_of_startsWith (pat l : List Char) (h : startsWithL pat l = true) :
    containsL pat l = true := by
  cases l with
  | nil =>
      cases pat with
      | nil => rfl
      | cons a as => simp [startsWithL] at h
  | cons c rest => simp [containsL, h]

theorem containsL_of_middle (pre pat post : List Char) :
    containsL pat (pre ++ pat ++ post) = true := by
  induction pre with
  | nil =>
      rw [List.nil_append]
      exact containsL_of_startsWith _ _ (startsWithL_self_append pat post)
  | cons c cs ih =>
      have hstep : (c :: cs) ++ pat ++ post = c :: (cs ++ pat ++ post) := by simp
      rw [hstep]
      simp only [containsL, ih, Bool.or_true]

theorem startsWithL_append_left (a p q : List Char) :
    startsWithL (a ++ p) (a ++ q) = startsWithL p q := by
  induction a with
  | nil => rfl
  | cons c cs ih => simp [startsWithL, ih]

/-!
The PackerFacade.  The repository's `data/__init__.py` imports
`struct.Struct` but contains no pack/unpack code at all; the packing layer
described by the specification (§4.5 and §6) is absent from `src/`.  The
definitions below are therefore modelled from the specification's words.
-/

/-- Modelled from the spec: the decoded scalar values of §6 (the byte-level
pack/unpack primitive is missing from `src/`).  Integers decode to
integers, booleans to booleans, half/single/double floats are carried as
their raw bit patterns, and raw/text byte runs decode as a single opaque
byte sequence. -/
inductive Value
  | int (z : Int)
  | boolean (b : Bool)
  | floatBits (bits : Nat)
  | bytes (bs : List Nat)
  deriving DecidableEq

/-- Modelled from the spec: one entry of the flattened scalar type-code
sequence of §4.5 (missing from `src/`): a scalar code, an opaque byte run
of a given length (text/raw bytes), or an ignored byte that consumes one
byte and produces no value. -/
inductive Slot
  | scalar (t : TypeCode)
  | strSlot (n : Nat)
  | pad
  deriving DecidableEq

/-- Product of the shape's repeat counts. -/
def listProdN (sh : List Nat) : Nat := sh.foldl (· * ·) 1

/-- `n` copies of a list, concatenated. -/
def repList (n : Nat) (l : List α) : List α := (List.replicate n l).flatten

mutual

/-- Modelled from the spec: the depth-first flattening of an element tree
into an ordered scalar type-code sequence (§4.5, missing from `src/`).
Repetition shapes expand multiplicities; a text-byte atom flattens to a
single opaque byte run, an ignored-byte atom to value-less padding. -/
def flattenElem : Elem → List Slot
  | .atom t sh =>
      match t with
      | .s => [.strSlot (listProdN sh)]
      | .x => List.replicate (listProdN sh) .pad
      | _ => List.replicate (listProdN sh) (.scalar t)
  | .comp ps _ sh => repList (listProdN sh) (flattenParts ps)

/-- Modelled from the spec: flattening of the ordered parts of a composite
(§4.5, missing from `src/`). -/
def flattenParts : List Elem → List Slot
  | [] => []
  | p :: ps => flattenElem p ++ flattenParts ps

end

/-- Little-endian byte decomposition: `k` bytes, least significant first. -/
def natToBytesLE : Nat → Nat → List Nat
  | 0, _ => []
  | k + 1, n => (n % 256) :: natToBytesLE k (n / 256)

/-- Little-endian byte recomposition. -/
def bytesToNatLE : List Nat → Nat
  | [] => 0
  | b :: bs => b + 256 * bytesToNatLE bs

/-- Modelled from the spec: the byte serialisation of an unsigned scalar of
width `k` under a concrete endianness (§6; missing from `src/`).  The
`unknown` arm is never used: packing requires a resolved endianness. -/
def encBytes : Endian → Nat → Nat → List Nat
  | .little, k, n => natToBytesLE k n
  | .big, k, n => (natToBytesLE k n).reverse
  | .unknown, _, _ => []

/-- Modelled from the spec: byte deserialisation under a concrete
endianness (§6; missing from `src/`). -/
def decBytes : Endian → List Nat → Nat
  | .little, bs => bytesToNatLE bs
  | .big, bs => bytesToNatLE bs.reverse
  | .unknown, _ => 0

/-- Two's-complement reinterpretation of a raw unsigned value below
`2 * half`. -/
def signedOfNat (half : Int) (raw : Nat) : Int :=
  if (raw : Int) < half then (raw : Int) else (raw : Int) - 2 * half

/-- Modelled from the spec: packing of one scalar value (§6; missing from
`src/`).  Signed integers are range-checked and stored in two's
complement, unsigned integers range-checked, booleans as one byte, floats
as their bit patterns.  `x`/`s` codes are not scalar slots. -/
def packScalar (en : Endian) : TypeCode → Value → Option (List Nat)
  | .b, .int z => if -128 ≤ z ∧ z < 128 then some (encBytes en 1 (z % 256).toNat) else none
  | .B, .int z => if 0 ≤ z ∧ z < 256 then some (encBytes en 1 z.toNat) else none
  | .h, .int z => if -32768 ≤ z ∧ z < 32768 then some (encBytes en 2 (z % 65536).toNat) else none
  | .H, .int z => if 0 ≤ z ∧ z < 65536 then some (encBytes en 2 z.toNat) else none
  | .i, .int z =>
      if -2147483648 ≤ z ∧ z < 2147483648 then
        some (encBytes en 4 (z % 4294967296).toNat) else none
  | .I, .int z => if 0 ≤ z ∧ z < 4294967296 then some (encBytes en 4 z.toNat) else none
  | .q, .int z =>
      if -9223372036854775808 ≤ z ∧ z < 9223372036854775808 then
        some (encBytes en 8 (z % 18446744073709551616).toNat) else none
  | .Q, .int z =>
      if 0 ≤ z ∧ z < 18446744073709551616 then some (encBytes en 8 z.toNat) else none
  | .boolean, .boolean bv => some [if bv then 1 else 0]
  | .e, .floatBits n => if n < 65536 then some (encBytes en 2 n) else none
  | .f, .floatBits n => if n < 4294967296 then some (encBytes en 4 n) else none
  | .d, .floatBits n => if n < 18446744073709551616 then some (encBytes en 8 n) else none
  | _, _ => none

/-- Modelled from the spec: unpacking of one scalar value from the head of
a byte sequence (§6; missing from `src/`), returning the value and the
remaining bytes. -/
def unpackScalar (en : Endian) (t : TypeCode) (bs : List Nat) : Option (Value × List Nat) :=
  let k := t.element_size
  if bs.length < k then none
  else
    let raw := decBytes en (bs.take k)
    let rest := bs.drop k
    match t with
    | .b => some (.int (signedOfNat 128 raw), rest)
    | .B => some (.int (raw : Int), rest)
    | .h => some (.int (signedOfNat 32768 raw), rest)
    | .H => some (.int (raw : Int), rest)
    | .i => some (.int (signedOfNat 2147483648 raw), rest)
    | .I => some (.int (raw : Int), rest)
    | .q => some (.int (signedOfNat 9223372036854775808 raw), rest)
    | .Q => some (.int (raw : Int), rest)
    | .boolean => some (.boolean (decide (raw ≠ 0)), rest)
    | .e => some (.floatBits raw, rest)
    | .f => some (.floatBits raw, rest)
    | .d => some (.floatBits raw, rest)
    | .x => none
    | .s => none

/-- Modelled from the spec: packing a value tuple against a flattened slot
sequence (§4.5/§6; missing from `src/`).  Ignored bytes emit a zero byte
and consume no value; byte runs require a byte list of exactly the run's
length. -/
def packSlots (en : Endian) : List Slot → List Value → Option (List Nat)
  | [], [] => some []
  | [], _ :: _ => none
  | .pad :: rest, vs => (packSlots en rest vs).map (fun bs => 0 :: bs)
  | .scalar t :: rest, v :: vs =>
      match packScalar en t v, packSlots en rest vs with
      | some b1, some b2 => some (b1 ++ b2)
      | _, _ => none
  | .scalar _ :: _, [] => none
  | .strSlot n :: rest, .bytes l :: vs =>
      if l.length = n ∧ l.all (· < 256) then (packSlots en rest vs).map (fun bs => l ++ bs)
      else none
  | .strSlot _ :: _, _ => none

/-- Modelled from the spec: unpacking a value tuple from a byte source
against a flattened slot sequence (§4.5/§6; missing from `src/`).  Bytes
remaining after the last slot are ignored; a short source fails
(`BufferTooSmallError`). -/
def unpackSlots (en : Endian) : List Slot → List Nat → Option (List Value)
  | [], _ => some []
  | .pad :: rest, bs =>
      match bs with
      | [] => none
      | _ :: bs2 => unpackSlots en rest bs2
  | .scalar t :: rest, bs =>
      match unpackScalar en t bs with
      | none => none
      | some (v, bs2) =>
          match unpackSlots en rest bs2 with
          | none => none
          | some vs => some (v :: vs)
  | .strSlot n :: rest, bs =>
      if n ≤ bs.length then
        match unpackSlots en rest (bs.drop n) with
        | none => none
        | some vs => some (.bytes (bs.take n) :: vs)
      else none

/-- Modelled from the spec: `pack` of the PackerFacade (§4.5; missing from
`src/`).  Requires a resolved endianness, emits the offset as leading zero
bytes and the padding as trailing zero bytes so that the result has the
layout's total size. -/
def Structure.pack (m : Structure) (vs : List Value) : Except Err (List Nat) :=
  match m.endian with
  | .unknown => .error (.valueError "unresolved endianness")
  | en =>
      match packSlots en (flattenElem m.components) vs with
      | some bs => .ok (List.replicate m.offset 0 ++ bs ++ List.replicate m.padding 0)
      | none => .error (.valueError "values do not match layout")

/-- Modelled from the spec: `unpack` of the PackerFacade (§4.5; missing
from `src/`).  Requires a resolved endianness, skips the offset bytes and
decodes the flattened slot sequence. -/
def Structure.unpack (m : Structure) (bs : List Nat) : Except Err (List Value) :=
  match m.endian with
  | .unknown => .error (.valueError "unresolved endianness")
  | en =>
      match unpackSlots en (flattenElem m.components) (bs.drop m.offset) with
      | some vs => .ok vs
      | none => .error (.valueError "buffer too small")

/-!
Round-trip lemmas for the modelled packer.
-/

theorem length_natToBytesLE (k n : Nat) : (natToBytesLE k n).length = k := by
  induction k generalizing n with
  | zero => rfl
  | succ k ih => simp [natToBytesLE, ih]

theorem length_encBytes (en : Endian) (hen : en ≠ .unknown) (k n : Nat) :
    (encBytes en k n).length = k := by
  cases en with
  | unknown => exact absurd rfl hen
  | little => simp [encBytes, length_natToBytesLE]
  | big => simp [encBytes, length_natToBytesLE]

theorem bytesToNatLE_natToBytesLE (k n : Nat) (h : n < 256 ^ k) :
    bytesToNatLE (natToBytesLE k n) = n := by
  induction k generalizing n with
  | zero =>
      simp [natToBytesLE, bytesToNatLE]
      omega
  | succ k ih =>
      have hdiv : n / 256 < 256 ^ k := by
        rw [pow_succ] at h
        omega
      simp [natToBytesLE, bytesToNatLE, ih _ hdiv]
      omega

theorem decBytes_encBytes (en : Endian) (hen : en ≠ .unknown) (k n : Nat) (h : n < 256 ^ k) :
    decBytes en (encBytes en k n) = n := by
  cases en with
  | unknown => exact absurd rfl hen
  | little => simpa [encBytes, decBytes] using bytesToNatLE_natToBytesLE k n h
  | big => simpa [encBytes, decBytes] using bytesToNatLE_natToBytesLE k n h

theorem signedOfNat_round (M z : Int) (hM : 0 < M) (h1 : -M ≤ z) (h2 : z < M) :
    signedOfNat M (z % (2 * M)).toNat = z := by
  have hnn : 0 ≤ z % (2 * M) := Int.emod_nonneg z (by omega)
  have htn : ((z % (2 * M)).toNat : Int) = z % (2 * M) := Int.toNat_of_nonneg hnn
  have hmod : z % (2 * M) = if 0 ≤ z then z else z + 2 * M := by
    split
    · exact Int.emod_eq_of_lt (by omega) (by omega)
    · have heq : (z + 2 * M * 1) % (2 * M) = z % (2 * M) := Int.add_mul_emod_self_left ..
      have hlt : (z + 2 * M) % (2 * M) = z + 2 * M := Int.emod_eq_of_lt (by omega) (by omega)
      rw [mul_one] at heq
      omega
  rw [signedOfNat, htn, hmod]
  rcases le_or_lt 0 z with hz | hz
  · rw [if_pos hz, if_pos h2]
  · rw [if_neg (by omega), if_neg (by omega)]
    omega

theorem enc_facts (en : Endian) (hen : en ≠ .unknown) (k n : Nat) (extra : List Nat) :
    ¬ ((encBytes en k n ++ extra).length < k)
    ∧ (encBytes en k n ++ extra).take k = encBytes en k n
    ∧ (encBytes en k n ++ extra).drop k = extra := by
  have hl := length_encBytes en hen k n
  exact ⟨by simp [List.length_append, hl], List.take_left' hl, List.drop_left' hl⟩

theorem decBytes_single (en : Endian) (hen : en ≠ .unknown) (b : Nat) :
    decBytes en [b] = b := by
  cases en with
  | unknown => exact absurd rfl hen
  | little => simp [decBytes, bytesToNatLE]
  | big => simp [decBytes, bytesToNatLE]

/-- Bytes encoded at width `k` under a concrete endianness are decoded back
to the same scalar, leaving the remaining bytes untouched. -/
theorem unpackScalar_packScalar (en : Endian) (hen : en ≠ .unknown)
    (t : TypeCode) (v : Value) (b1 extra : List Nat)
    (h : packScalar en t v = some b1) :
    unpackScalar en t (b1 ++ extra) = some (v, extra) := by
  cases t <;> cases v <;>
    simp only [packScalar, reduceCtorEq] at h
  -- signed 1-byte
  · rename_i z
    split at h
    · rename_i hc
      injection h with hb; subst hb
      obtain ⟨hnl, htk, hdr⟩ := enc_facts en hen 1 ((z % 256).toNat) extra
      simp only [unpackScalar, TypeCode.element_size]
      rw [if_neg hnl, htk, hdr, decBytes_encBytes en hen 1 _ (by norm_num; omega)]
      have hsr := signedOfNat_round 128 z (by norm_num) hc.1 hc.2
      norm_num at hsr
      rw [hsr]
    · exact absurd h (by simp)
  -- unsigned 1-byte
  · rename_i z
    split at h
    · rename_i hc
      injection h with hb; subst hb
      obtain ⟨hnl, htk, hdr⟩ := enc_facts en hen 1 z.toNat extra
      simp only [unpackScalar, TypeCode.element_size]
      rw [if_neg hnl, htk, hdr, decBytes_encBytes en hen 1 _ (by norm_num; omega)]
      rw [Int.toNat_of_nonneg hc.1]
    · exact absurd h (by simp)
  -- signed 2-byte
  · rename_i z
    split at h
    · rename_i hc
      injection h with hb; subst hb
      obtain ⟨hnl, htk, hdr⟩ := enc_facts en hen 2 ((z % 65536).toNat) extra
      simp only [unpackScalar, TypeCode.element_size]
      rw [if_neg hnl, htk, hdr, decBytes_encBytes en hen 2 _ (by norm_num; omega)]
      have hsr := signedOfNat_round 32768 z (by norm_num) hc.1 hc.2
      norm_num at hsr
      rw [hsr]
    · exact absurd h (by simp)
  -- unsigned 2-byte
  · rename_i z
    split at h
    · rename_i hc
      injection h with hb; subst hb
      obtain ⟨hnl, htk, hdr⟩ := enc_facts en hen 2 z.toNat extra
      simp only [unpackScalar, TypeCode.element_size]
      rw [if_neg hnl, htk, hdr, decBytes_encBytes en hen 2 _ (by norm_num; omega)]
      rw [Int.toNat_of_nonneg hc.1]
    · exact absurd h (by simp)
  -- signed 4-byte
  · rename_i z
    split at h
    · rename_i hc
      injection h with hb; subst hb
      obtain ⟨hnl, htk, hdr⟩ := enc_facts en hen 4 ((z % 4294967296).toNat) extra
      simp only [unpackScalar, TypeCode.element_size]
      rw [if_neg hnl, htk, hdr, decBytes_encBytes en hen 4 _ (by norm_num; omega)]
      have hsr := signedOfNat_round 2147483648 z (by norm_num) hc.1 hc.2
      norm_num at hsr
      rw [hsr]
    · exact absurd h (by simp)
  -- unsigned 4-byte
  · rename_i z
    split at h
    · rename_i hc
      injection h with hb; subst hb
      obtain ⟨hnl, htk, hdr⟩ := enc_facts en hen 4 z.toNat extra
      simp only [unpackScalar, TypeCode.element_size]
      rw [if_neg hnl, htk, hdr, decBytes_encBytes en hen 4 _ (by norm_num; omega)]
      rw [Int.toNat_of_nonneg hc.1]
    · exact absurd h (by simp)
  -- signed 8-byte
  · rename_i z
    split at h
    · rename_i hc
      injection h with hb; subst hb
      obtain ⟨hnl, htk, hdr⟩ := enc_facts en hen 8 ((z % 18446744073709551616).toNat) extra
      simp only [unpackScalar, TypeCode.element_size]
      rw [if_neg hnl, htk, hdr, decBytes_encBytes en hen 8 _ (by norm_num; omega)]
      have hsr := signedOfNat_round 9223372036854775808 z (by norm_num) hc.1 hc.2
      norm_num at hsr
      rw [hsr]
    · exact absurd h (by simp)
  -- unsigned 8-byte
  · rename_i z
    split at h
    · rename_i hc
      injection h with hb; subst hb
      obtain ⟨hnl, htk, hdr⟩ := enc_facts en hen 8 z.toNat extra
      simp only [unpackScalar, TypeCode.element_size]
      rw [if_neg hnl, htk, hdr, decBytes_encBytes en hen 8 _ (by norm_num; omega)]
      rw [Int.toNat_of_nonneg hc.1]
    · exact absurd h (by simp)
  -- boolean
  · rename_i bv
    injection h with hb; subst hb
    simp only [unpackScalar, TypeCode.element_size, List.cons_append, List.nil_append]
    rw [if_neg (by simp)]
    simp only [List.take_succ_cons, List.take_zero, List.drop_succ_cons, List.drop_zero]
    simp only [decBytes_single en hen]
    cases bv <;> simp
  -- half-float
  · rename_i n
    split at h
    · rename_i hc
      injection h with hb; subst hb
      obtain ⟨hnl, htk, hdr⟩ := enc_facts en hen 2 n extra
      simp only [unpackScalar, TypeCode.element_size]
      rw [if_neg hnl, htk, hdr, decBytes_encBytes en hen 2 _ (by norm_num; omega)]
    · exact absurd h (by simp)
  -- float
  · rename_i n
    split at h
    · rename_i hc
      injection h with hb; subst hb
      obtain ⟨hnl, htk, hdr⟩ := enc_facts en hen 4 n extra
      simp only [unpackScalar, TypeCode.element_size]
      rw [if_neg hnl, htk, hdr, decBytes_encBytes en hen 4 _ (by norm_num; omega)]
    · exact absurd h (by simp)
  -- double
  · rename_i n
    split at h
    · rename_i hc
      injection h with hb; subst hb
      obtain ⟨hnl, htk, hdr⟩ := enc_facts en hen 8 n extra
      simp only [unpackScalar, TypeCode.element_size]
      rw [if_neg hnl, htk, hdr, decBytes_encBytes en hen 8 _ (by norm_num; omega)]
    · exact absurd h (by simp)


/-- Value tuples packed against a slot sequence are recovered by unpacking,
regardless of trailing bytes. -/
theorem unpackSlots_packSlots (en : Endian) (hen : en ≠ .unknown) :
    ∀ (slots : List Slot) (vs : List Value) (bs extra : List Nat),
      packSlots en slots vs = some bs →
      unpackSlots en slots (bs ++ extra) = some vs := by
  intro slots
  induction slots with
  | nil =>
      intro vs bs extra h
      cases vs with
      | nil =>
          simp only [packSlots, Option.some.injEq] at h
          subst h
          simp [unpackSlots]
      | cons v vs => simp [packSlots] at h
  | cons sl rest ih =>
      intro vs bs extra h
      cases sl with
      | pad =>
          simp only [packSlots] at h
          cases hps : packSlots en rest vs with
          | none => rw [hps] at h; simp at h
          | some bs2 =>
              rw [hps] at h
              simp only [Option.map_some', Option.some.injEq] at h
              subst h
              simp only [unpackSlots, List.cons_append]
              exact ih vs bs2 extra hps
      | scalar t =>
          cases vs with
          | nil => simp [packSlots] at h
          | cons v vs2 =>
              simp only [packSlots] at h
              cases hp1 : packScalar en t v with
              | none => rw [hp1] at h; simp at h
              | some bb =>
                  cases hp2 : packSlots en rest vs2 with
                  | none => rw [hp1, hp2] at h; simp at h
                  | some bs2 =>
                      rw [hp1, hp2] at h
                      simp only [Option.some.injEq] at h
                      subst h
                      simp only [unpackSlots, List.append_assoc]
                      rw [unpackScalar_packScalar en hen t v bb (bs2 ++ extra) hp1]
                      simp only [ih vs2 bs2 extra hp2]
      | strSlot n =>
          cases vs with
          | nil => simp [packSlots] at h
          | cons v vs2 =>
              cases v with
              | int z => simp [packSlots] at h
              | boolean bv => simp [packSlots] at h
              | floatBits fb => simp [packSlots] at h
              | bytes l =>
                  simp only [packSlots] at h
                  split at h
                  · rename_i hcond
                    cases hp2 : packSlots en rest vs2 with
                    | none => rw [hp2] at h; simp at h
                    | some bs2 =>
                        rw [hp2] at h
                        simp only [Option.map_some', Option.some.injEq] at h
                        subst h
                        simp only [unpackSlots, List.append_assoc]
                        rw [if_pos (by simp [List.length_append, ← hcond.1])]
                        rw [List.take_left' hcond.1, List.drop_left' hcond.1]
                        simp only [ih vs2 bs2 extra hp2]
                  · exact absurd h (by simp)

/-- **C5.** Pack/unpack round-trip: for every matcher with a concrete
(little or big) endianness and every tuple of values accepted by `pack`
(i.e. matching its layout), unpacking the byte buffer produced by
`pack(values)` returns exactly the original values. -/
theorem c5_pack_unpack_roundtrip (m : Structure) (vs : List Value) (bs : List Nat)
    (hen : m.endian ≠ Endian.unknown) (h : m.pack vs = .ok bs) :
    m.unpack bs = .ok vs := by
  cases hm : m.endian with
  | unknown => exact absurd hm hen
  | little =>
      simp only [Structure.pack, hm] at h
      cases hps : packSlots .little (flattenElem m.components) vs with
      | none => rw [hps] at h; simp at h
      | some data =>
          rw [hps] at h
          simp only [Except.ok.injEq] at h
          subst h
          simp only [Structure.unpack, hm]
          rw [List.append_assoc, List.drop_left' (List.length_replicate ..)]
          simp only [unpackSlots_packSlots Endian.little (by decide)
            (flattenElem m.components) vs data (List.replicate m.padding 0) hps]
  | big =>
      simp only [Structure.pack, hm] at h
      cases hps : packSlots .big (flattenElem m.components) vs with
      | none => rw [hps] at h; simp at h
      | some data =>
          rw [hps] at h
          simp only [Except.ok.injEq] at h
          subst h
          simp only [Structure.unpack, hm]
          rw [List.append_assoc, List.drop_left' (List.length_replicate ..)]
          simp only [unpackSlots_packSlots Endian.big (by decide)
            (flattenElem m.components) vs data (List.replicate m.padding 0) hps]

/-- Witness for C5: the spec's scenario — a little-endian composite of a
signed 4-byte and an unsigned 2-byte field; packing `(1, 2)` gives the
bytes `01 00 00 00 02 00`, and unpacking returns `(1, 2)`. -/
theorem c5_pack_unpack_roundtrip_witness :
    Structure.pack ⟨.comp [.atom .i [], .atom .H []] [none, none] [], .little, 0, 0⟩
        [.int 1, .int 2] = .ok [1, 0, 0, 0, 2, 0]
    ∧ Structure.unpack ⟨.comp [.atom .i [], .atom .H []] [none, none] [], .little, 0, 0⟩
        [1, 0, 0, 0, 2, 0] = .ok [.int 1, .int 2] :=
  ⟨rfl,
   c5_pack_unpack_roundtrip
     ⟨.comp [.atom .i [], .atom .H []] [none, none] [], .little, 0, 0⟩
     [.int 1, .int 2] [1, 0, 0, 0, 2, 0] (by decide) rfl⟩

/-!
Claim theorems.
-/

/-- **C1.** `combine` on matchers raises the endian-conflict `ValueError`
(`EndianConflictError`) exactly when both endianness tags are concrete and
unequal; otherwise it succeeds, its endianness is the symmetric three-valued
merge (with `unknown` as identity and idempotent concrete tags) and its root
is the combination of the two roots; in particular a big-endian boolean
combined with a little-endian float conflicts. -/
theorem c1_combine_endianness (a b : Structure) :
    (a.add b = .error (.valueError "endian conflict")
       ↔ (a.endian ≠ .unknown ∧ b.endian ≠ .unknown ∧ a.endian ≠ b.endian))
    ∧ (∀ e, Structure.endianMergeTable a.endian b.endian = some e →
         a.add b = .ok ⟨a.components.add b.components, e, 0, 0⟩)
    ∧ (∀ e, Structure.endianMergeTable Endian.unknown e = some e
          ∧ Structure.endianMergeTable e Endian.unknown = some e
          ∧ Structure.endianMergeTable e e = some e)
    ∧ Field.B1.add Field.f4 = .error (.valueError "endian conflict") := by
  refine ⟨?_, ?_, ?_, rfl⟩
  · cases ha : a.endian <;> cases hb : b.endian <;>
      simp [Structure.add, Structure.endianMergeTable, ha, hb]
  · intro e he
    simp [Structure.add, he]
  · intro e
    cases e <;> simp [Structure.endianMergeTable]

/-- Witness for C1: merging two little-endian presets succeeds with the
combined root and little endianness. -/
theorem c1_combine_endianness_witness :
    Field.s4.add Field.u2
      = .ok ⟨Field.s4.components.add Field.u2.components, Endian.little, 0, 0⟩ :=
  (c1_combine_endianness Field.s4 Field.u2).2.1 Endian.little rfl

/-- Counterexample to C2 as stated: a repeat count of `0` (so `n ≤ 0`) does
not raise `InvalidRepeatCountError`; `__mul__` performs no validation and
returns a new element with `0` appended to the shape, of size `0`. -/
theorem c2_repeat_counterexample :
    (Elem.atom .i []).mul 0 = Elem.atom .i [0]
    ∧ ((Elem.atom .i []).mul 0).size = 0 := ⟨rfl, rfl⟩

/-- **C2 (amended).** `repeat(n)` never validates its count: for every
atomic or composite element and every count `n` (including `n = 0`, where
the claim demanded an error) it returns a new element with `n` appended to
its shape whose size equals the original size multiplied by `n`. -/
theorem c2_repeat_multiplicative (el : Elem) (n : Nat) :
    (el.mul n).shape = el.shape ++ [n] ∧ (el.mul n).size = el.size * n := by
  cases el with
  | atom t sh =>
      exact ⟨rfl, by simp [Elem.mul, Elem.size, List.foldl_append]⟩
  | comp ps ns sh =>
      exact ⟨rfl, by simp [Elem.mul, Elem.size, List.foldl_append]⟩

/-- Counterexample to C3 as stated: a multi-part composite with empty shape
is NOT normalized into a single-part composite by `combine`; combining the
two-part composite `b+b` with a third scalar concatenates all parts,
yielding three parts where the claim's wrap-any-composite normalization
would yield two. -/
theorem c3_combine_counterexample :
    (((Elem.atom .b []).add (Elem.atom .b [])).add (Elem.atom .b [])).parts
      = [Elem.atom .b [], Elem.atom .b [], Elem.atom .b []]
    ∧ (((Elem.atom .b []).add (Elem.atom .b [])).add (Elem.atom .b [])).parts.length ≠ 2 :=
  ⟨rfl, by decide⟩

/-- **C3 (amended).** `combine` first normalizes each operand — an atomic
element (scalar or shaped) becomes a one-part composite holding it, a
composite with non-empty shape is wrapped as one grouped part, but a
composite with empty shape is used as-is — then concatenates the operands'
part and name sequences left-to-right into a new shapeless composite; in
particular combining a 3-wide array element with a scalar field yields a
2-part composite whose part 0 is the whole array as one opaque field. -/
theorem c3_combine_normalizes (a b : Elem) :
    (a.add b = .comp (a.normalize.parts ++ b.normalize.parts)
                     (a.normalize.names ++ b.normalize.names) [])
    ∧ (∀ t sh, a = .atom t sh → a.normalize = .comp [a] [none] [])
    ∧ (∀ ps ns sh, a = .comp ps ns sh → sh ≠ [] → a.normalize = .comp [a] [none] [])
    ∧ (∀ ps ns, a = .comp ps ns [] → a.normalize = a)
    ∧ (Elem.atom .i [3]).add (Elem.atom .B [])
        = .comp [Elem.atom .i [3], Elem.atom .B []] [none, none] [] := by
  refine ⟨rfl, ?_, ?_, ?_, rfl⟩
  · intro t sh ha
    subst ha
    rfl
  · intro ps ns sh ha hsh
    subst ha
    simp [Elem.normalize, hsh]
  · intro ps ns ha
    subst ha
    simp [Elem.normalize]

/-- Witness for C3: a shaped composite is wrapped as a single grouped part
by normalization. -/
theorem c3_combine_normalizes_witness :
    (Elem.comp [Elem.atom .b []] [none] [3]).normalize
      = Elem.comp [Elem.comp [Elem.atom .b []] [none] [3]] [none] [] :=
  (c3_combine_normalizes (Elem.comp [Elem.atom .b []] [none] [3]) (Elem.atom .s [])).2.2.1
    [Elem.atom .b []] [none] [3] rfl (by decide)

/-- **C4.** Combination of elements is associative: both associations give
the same composite on the nose — hence equal (flattened) part sequences,
equal name sequences, and equal total size. -/
theorem c4_combine_assoc (a b c : Elem) :
    (a.add b).add c = a.add (b.add c)
    ∧ ((a.add b).add c).parts = (a.add (b.add c)).parts
    ∧ ((a.add b).add c).names = (a.add (b.add c)).names
    ∧ ((a.add b).add c).size = (a.add (b.add c)).size := by
  have key : (a.add b).add c = a.add (b.add c) := by
    simp [Elem.add, Elem.normalize, Elem.parts, Elem.names]
  exact ⟨key, by rw [key], by rw [key], by rw [key]⟩

/-- **C8.** The rendered description of an atomic element is its type name
followed by its shape brackets, but at the claim's input — the root of the
signed-4-byte preset `s4` (struct code `'i'`) with shape `[3]` — the code
renders "unsigned 4-bytes[3]", not "signed 4-bytes[3]": the `__str__`
typename table swaps the signed/unsigned labels relative to the struct
codes the catalog assigns (`s4`/`s1` use `'i'`/`'b'`, which Python's
`struct` and the catalog treat as signed). -/
theorem c8_s4_rendering :
    Field.s4.components = Elem.atom .i []
    ∧ (Field.s4.components.mul 3).toStr = some "unsigned 4-bytes[3]"
    ∧ TypeCode.typename .i = "unsigned 4-bytes"
    ∧ (Field.s4.components.mul 3).toStr ≠ some "signed 4-bytes[3]" := by
  refine ⟨rfl, rfl, rfl, by decide⟩

/-- Counterexample to C9 as stated: catalog presets have atomic roots, and
`Atom` has no `group`/`named`/`with_names` methods, so delegation raises
`AttributeError` instead of returning a matcher. -/
theorem c9_atomic_root_counterexample :
    Field.i.group none = .error (.attributeError "group")
    ∧ Field.i.named (some "n") = .error (.attributeError "named")
    ∧ Field.i.with_names [some "n"] = .error (.attributeError "with_names") :=
  ⟨rfl, rfl, rfl⟩

/-- **C9 (amended).** For every matcher whose root is a composite element,
`group`, `named` and `with_names` return a new matcher whose root is the
operation applied to the root, preserving the endianness (offset/padding
reset); `named` fails with the single-name `ValueError` exactly when the
root's part count differs from one, and `with_names` fails with the
name-count `ValueError` exactly on a length mismatch.  For a matcher whose
root is atomic — every catalog preset — the three operations instead raise
`AttributeError`, because `Atom` lacks the methods. -/
theorem c9_group_named_with_names (m : Structure) (nm : Option String)
    (nms : List (Option String)) :
    (∀ ps ns sh, m.components = .comp ps ns sh →
       m.group nm = .ok ⟨.comp [.comp ps ns sh] [nm] [], m.endian, 0, 0⟩
       ∧ (ps.length = 1 →
            m.named nm = .ok ⟨.comp ps [nm] sh, m.endian, 0, 0⟩)
       ∧ (ps.length ≠ 1 →
            m.named nm = .error (.valueError "can't apply single name to multiple fields"))
       ∧ (nms.length = ps.length →
            m.with_names nms = .ok ⟨.comp ps nms sh, m.endian, 0, 0⟩)
       ∧ (nms.length ≠ ps.length →
            m.with_names nms = .error (.valueError "name count must match field count")))
    ∧ (∀ t sh, m.components = .atom t sh →
         m.group nm = .error (.attributeError "group")
         ∧ m.named nm = .error (.attributeError "named")
         ∧ m.with_names nms = .error (.attributeError "with_names")) := by
  constructor
  · intro ps ns sh hc
    refine ⟨?_, ?_, ?_, ?_, ?_⟩
    · simp [Structure.group, hc, Elem.group, Except.map]
    · intro hlen
      simp [Structure.named, hc, Elem.named, hlen, Except.map]
    · intro hne
      simp [Structure.named, hc, Elem.named, hne, Except.map]
    · intro hlen
      simp [Structure.with_names, hc, Elem.with_names, hlen, Except.map]
    · intro hne
      simp [Structure.with_names, hc, Elem.with_names, hne, Except.map]
  · intro t sh hc
    refine ⟨?_, ?_, ?_⟩ <;>
      simp [Structure.group, Structure.named, Structure.with_names, hc,
            Elem.group, Elem.named, Elem.with_names, Except.map]

/-- Witness for C9: grouping and naming a composite-rooted matcher. -/
theorem c9_group_named_with_names_witness :
    Structure.group ⟨.comp [.atom .b []] [none] [], .big, 5, 7⟩ (some "f")
      = .ok ⟨.comp [.comp [.atom .b []] [none] []] [some "f"] [], .big, 0, 0⟩
    ∧ Structure.named ⟨.comp [.atom .b []] [none] [], .big, 5, 7⟩ (some "f")
      = .ok ⟨.comp [.atom .b []] [some "f"] [], .big, 0, 0⟩ :=
  have h := (c9_group_named_with_names ⟨.comp [.atom .b []] [none] [], .big, 5, 7⟩
    (some "f") [some "g"]).1 [.atom .b []] [none] [] rfl
  ⟨h.1, h.2.1 rfl⟩

/-- If an `Except`-valued root operation wrapped by a `Structure` smart
constructor returns a matcher, that matcher has offset 0, padding 0 and the
given endianness. -/
theorem map_ok_fields (r : Except Err Elem) (en : Endian) (m2 : Structure)
    (h : r.map (fun c => (⟨c, en, 0, 0⟩ : Structure)) = .ok m2) :
    m2.offset = 0 ∧ m2.padding = 0 ∧ m2.endian = en := by
  cases r with
  | error e => simp [Except.map] at h
  | ok c =>
      simp only [Except.map, Except.ok.injEq] at h
      subst h
      exact ⟨rfl, rfl, rfl⟩

/-- **C10.** Offset and padding survive no combinator: `repeat` always
returns a matcher with offset 0 and padding 0 (keeping the endianness and
repeating the root), and whenever `group`, `named` or `with_names` return a
matcher it likewise has offset and padding reset to 0 and the original
endianness; only direct construction of a matcher can set them. -/
theorem c10_offset_padding_reset (m : Structure) (n : Nat) (nm : Option String)
    (nms : List (Option String)) :
    ((m.mul n).offset = 0 ∧ (m.mul n).padding = 0 ∧ (m.mul n).endian = m.endian
       ∧ (m.mul n).components = m.components.mul n)
    ∧ (∀ m2, m.group nm = .ok m2 → m2.offset = 0 ∧ m2.padding = 0 ∧ m2.endian = m.endian)
    ∧ (∀ m2, m.named nm = .ok m2 → m2.offset = 0 ∧ m2.padding = 0 ∧ m2.endian = m.endian)
    ∧ (∀ m2, m.with_names nms = .ok m2 →
         m2.offset = 0 ∧ m2.padding = 0 ∧ m2.endian = m.endian) := by
  refine ⟨⟨rfl, rfl, rfl, rfl⟩, ?_, ?_, ?_⟩
  · exact fun m2 hm2 => map_ok_fields _ _ _ hm2
  · exact fun m2 hm2 => map_ok_fields _ _ _ hm2
  · exact fun m2 hm2 => map_ok_fields _ _ _ hm2

/-- Witness for C10: grouping a matcher with nonzero offset and padding
resets both to 0 and keeps the endianness. -/
theorem c10_offset_padding_reset_witness :
    (⟨.comp [.comp [.atom .b []] [none] []] [none] [], .little, 0, 0⟩ : Structure).offset = 0
    ∧ (⟨.comp [.comp [.atom .b []] [none] []] [none] [], .little, 0, 0⟩ : Structure).padding = 0
    ∧ (⟨.comp [.comp [.atom .b []] [none] []] [none] [], .little, 0, 0⟩ : Structure).endian
        = (⟨.comp [.atom .b []] [none] [], .little, 3, 4⟩ : Structure).endian :=
  (c10_offset_padding_reset ⟨.comp [.atom .b []] [none] [], .little, 3, 4⟩ 2 none []).2.1
    ⟨.comp [.comp [.atom .b []] [none] []] [none] [], .little, 0, 0⟩ rfl

/-!
Rendering facts for atomic and two-field matchers, and the catalog claims.
-/

theorem containsL_append_right (l r pat : List Char) (h : containsL pat r = true) :
    containsL pat (l ++ r) = true := by
  induction l with
  | nil => simpa
  | cons c cs ih => simp [containsL, ih, Bool.or_true]

theorem contains_line (pre pat : List Char) : containsL pat (pre ++ pat) = true := by
  simpa using containsL_of_middle pre pat []

theorem noNL_atomStr_nil (t : TypeCode) : noNL (atomStr t []).data = true := by
  cases t <;> decide

theorem noNL_word (e : Endian) : noNL (Endian.word e).data = true := by
  cases e <;> decide

theorem catalog_eq : catalog = widthTable.map (fun x => mkField x.1 x.2.1) := rfl

theorem catalogWithWidths_eq :
    catalogWithWidths = widthTable.map (fun x => (mkField x.1 x.2.1, x.2.2)) := rfl

theorem size_width : ∀ x ∈ widthTable, (mkField x.1 x.2.1).size = x.2.2 := by decide

theorem add_ok_of_merge (a b : Structure) (e : Endian)
    (h : Structure.endianMergeTable a.endian b.endian = some e) :
    a.add b = .ok ⟨a.components.add b.components, e, 0, 0⟩ := by
  simp [Structure.add, h]

theorem merge_total_of_no_conflict (e1 e2 : Endian)
    (h : ¬(e1 ≠ Endian.unknown ∧ e2 ≠ Endian.unknown ∧ e1 ≠ e2)) :
    ∃ e, Structure.endianMergeTable e1 e2 = some e := by
  cases e1 <;> cases e2 <;>
    first
      | exact ⟨_, rfl⟩
      | exact absurd (by decide) h

/-- Data-level normal form of the rendering of an atomic catalog preset. -/
theorem render_atom_data (t : TypeCode) (e : Endian) :
    ∃ str, (mkField t e).render = some str
      ∧ str.data = (Endian.word e).data ++ ("-endian matcher for ").data
          ++ (atomStr t []).data ++ (" (atomic) (offset=0, padding=0)").data := by
  refine ⟨_, rfl, ?_⟩
  have t0 : toString (0 : Nat) = "0" := rfl
  simp [String.data_append, t0, mkField]

/-- Data-level normal form of the rendering of a two-atom composite
matcher, decomposed at its newlines. -/
theorem render_pair_data (ta tb : TypeCode) (e : Endian) :
    ∃ str, (Structure.mk (.comp [.atom ta [], .atom tb []] [none, none] []) e 0 0).render
        = some str
      ∧ str.data = ((Endian.word e).data
            ++ ("-endian matcher for structure (offset=0, padding=0):").data)
          ++ '\n' :: ((("0: ").data ++ (atomStr ta []).data)
          ++ '\n' :: (("1: ").data ++ (atomStr tb []).data)) := by
  refine ⟨_, rfl, ?_⟩
  have t0 : toString (0 : Nat) = "0" := rfl
  have t1 : toString (1 : Nat) = "1" := rfl
  have l0 : ("0").length = 1 := rfl
  have l1 : ("1").length = 1 := rfl
  simp [String.data_append, shapestr, spaces, padTo, String.join, inames, List.enum,
        List.enumFrom, joinSep, t0, t1, l0, l1]

theorem noNL_pair_hdr (e : Endian) :
    noNL ((Endian.word e).data
        ++ ("-endian matcher for structure (offset=0, padding=0):").data) = true := by
  rw [noNL_append, noNL_word]
  decide

theorem noNL_field_line (t : TypeCode) (pre : String) (h : noNL pre.data = true) :
    noNL (pre.data ++ (atomStr t []).data) = true := by
  rw [noNL_append, h, noNL_atomStr_nil]
  rfl

theorem startsWith_line0 (X : List Char) :
    startsWithL ("0:").data (("0: ").data ++ X) = true := by
  show startsWithL ('0' :: ':' :: []) ('0' :: ':' :: ' ' :: X) = true
  simp [startsWithL]

theorem startsWith_line1 (X : List Char) :
    startsWithL ("1:").data (("1: ").data ++ X) = true := by
  show startsWithL ('1' :: ':' :: []) ('1' :: ':' :: ' ' :: X) = true
  simp [startsWithL]

/-- **C6.** For any two catalog entries whose endianness tags do not
conflict, `combine` succeeds; the result's size is the sum of the two
sizes, its offset and padding are zero, and its rendering has exactly 3
lines: a header, a line prefixed `0:` containing the first entry's rendered
atomic description, and a line prefixed `1:` containing the second's. -/
theorem c6_catalog_combine (a b : Structure) (ha : a ∈ catalog) (hb : b ∈ catalog)
    (hnc : ¬(a.endian ≠ Endian.unknown ∧ b.endian ≠ Endian.unknown ∧ a.endian ≠ b.endian)) :
    ∃ m, a.add b = .ok m
      ∧ m.size = a.size + b.size
      ∧ m.offset = 0 ∧ m.padding = 0
      ∧ ∃ str l0 l1 l2,
          m.render = some str
          ∧ splitLines str.data = [l0, l1, l2]
          ∧ startsWithL ("0:").data l1 = true
          ∧ (∃ sa, a.components.toStr = some sa ∧ containsL sa.data l1 = true)
          ∧ startsWithL ("1:").data l2 = true
          ∧ (∃ sb, b.components.toStr = some sb ∧ containsL sb.data l2 = true) := by
  rw [catalog_eq] at ha hb
  obtain ⟨⟨ta, ea, wa⟩, -, rfl⟩ := List.mem_map.mp ha
  obtain ⟨⟨tb, eb, wb⟩, -, rfl⟩ := List.mem_map.mp hb
  obtain ⟨e, he⟩ := merge_total_of_no_conflict ea eb hnc
  refine ⟨_, add_ok_of_merge _ _ e he, ?_, rfl, rfl, ?_⟩
  · simp [Structure.size, Structure.data_size, mkField, Elem.add, Elem.normalize,
          Elem.parts, Elem.names, Elem.size, Elem.sizeParts]
  · have hm : (Structure.mk ((mkField ta ea).components.add (mkField tb eb).components) e 0 0)
        = Structure.mk (.comp [.atom ta [], .atom tb []] [none, none] []) e 0 0 := rfl
    rw [hm]
    obtain ⟨str, hrender, hdata⟩ := render_pair_data ta tb e
    refine ⟨str,
      (Endian.word e).data ++ ("-endian matcher for structure (offset=0, padding=0):").data,
      ("0: ").data ++ (atomStr ta []).data,
      ("1: ").data ++ (atomStr tb []).data,
      hrender, ?_, startsWith_line0 _, ⟨atomStr ta [], rfl, contains_line _ _⟩,
      startsWith_line1 _, ⟨atomStr tb [], rfl, contains_line _ _⟩⟩
    rw [hdata]
    rw [splitLines_append _ _ (noNL_pair_hdr e)]
    rw [splitLines_append _ _ (noNL_field_line ta "0: " (by decide))]
    rw [splitLines_of_noNL _ (noNL_field_line tb "1: " (by decide))]

/-- Witness for C6: the spec's scenario, signed-4-byte-little combined with
unsigned-2-byte-little. -/
theorem c6_catalog_combine_witness :
    ∃ m, Field.s4.add Field.u2 = .ok m
      ∧ m.size = Field.s4.size + Field.u2.size
      ∧ m.offset = 0 ∧ m.padding = 0
      ∧ ∃ str l0 l1 l2,
          m.render = some str
          ∧ splitLines str.data = [l0, l1, l2]
          ∧ startsWithL ("0:").data l1 = true
          ∧ (∃ sa, Field.s4.components.toStr = some sa ∧ containsL sa.data l1 = true)
          ∧ startsWithL ("1:").data l2 = true
          ∧ (∃ sb, Field.u2.components.toStr = some sb ∧ containsL sb.data l2 = true) :=
  c6_catalog_combine Field.s4 Field.u2
    (by rw [catalog_eq]; exact List.mem_map.mpr ⟨(.i, .little, 4), by decide, rfl⟩)
    (by rw [catalog_eq]; exact List.mem_map.mpr ⟨(.H, .little, 2), by decide, rfl⟩)
    (by decide)

/-- **C7.** Every catalog preset's size equals its documented base byte
width, and its rendering is a single line that starts with one of the three
endianness-word prefixes and contains the word "atomic". -/
theorem c7_catalog_entry (p : Structure × Nat) (hp : p ∈ catalogWithWidths) :
    p.1.size = p.2
    ∧ ∃ str, p.1.render = some str
        ∧ splitLines str.data = [str.data]
        ∧ (startsWithL ("little-endian").data str.data = true
           ∨ startsWithL ("big-endian").data str.data = true
           ∨ startsWithL ("unknown-endian").data str.data = true)
        ∧ containsL ("atomic").data str.data = true := by
  rw [catalogWithWidths_eq] at hp
  obtain ⟨⟨t, e, w⟩, htw, rfl⟩ := List.mem_map.mp hp
  refine ⟨size_width _ htw, ?_⟩
  obtain ⟨str, hrender, hdata⟩ := render_atom_data t e
  refine ⟨str, hrender, ?_, ?_, ?_⟩
  · rw [hdata]
    apply splitLines_of_noNL
    rw [noNL_append, noNL_append, noNL_append, noNL_word, noNL_atomStr_nil]
    decide
  · rw [hdata]
    cases e with
    | unknown =>
        right; right
        simp only [Endian.word, List.append_assoc]
        simp [startsWithL]
    | little =>
        left
        simp only [Endian.word, List.append_assoc]
        simp [startsWithL]
    | big =>
        right; left
        simp only [Endian.word, List.append_assoc]
        simp [startsWithL]
  · rw [hdata]
    apply containsL_append_right
    decide

/-- Witness for C7: the `byte` preset has size 1 and an atomic single-line
rendering. -/
theorem c7_catalog_entry_witness :
    (Field.b, 1).1.size = (Field.b, 1).2
    ∧ ∃ str, (Field.b, 1).1.render = some str
        ∧ splitLines str.data = [str.data]
        ∧ (startsWithL ("little-endian").data str.data = true
           ∨ startsWithL ("big-endian").data str.data = true
           ∨ startsWithL ("unknown-endian").data str.data = true)
        ∧ containsL ("atomic").data str.data = true :=
  c7_catalog_entry (Field.b, 1)
    (by rw [catalogWithWidths_eq]; exact List.mem_map.mpr ⟨(.b, .unknown, 1), by decide, rfl⟩)
